import Mathlib

/-!
# Air Guitar Pro — verification of the matching engine

Shallow embedding of the strum-detection / note-judging engine of the
`air-guitar-pro` web player (the `gameLoop` of `PCPlayer`, the
`ws.onmessage` chord handler, and the `BackendService` score interface),
together with proofs of the specification's claims about it.

Coordinates and track positions are modelled as rationals (`ℚ`);
timestamps (`Date.now()` milliseconds) as integers (`ℤ`).
-/

namespace AirGuitar

/-! ## Constants (from `PCPlayer`) -/

/-- `NOTE_SPEED = 16` — pixels a note advances per frame. -/
def NOTE_SPEED : ℚ := 16

/-- `HIT_WINDOW = 120` — maximum distance from the hit line for a strum to register. -/
def HIT_WINDOW : ℚ := 120

/-- `STRUM_VELOCITY_THRESHOLD = 18` — minimum per-frame vertical speed for a strum. -/
def STRUM_VELOCITY_THRESHOLD : ℚ := 18

/-- Debounce interval in ms: the literal `150` in `now - lastStrumTimeRef.current > 150`. -/
def DEBOUNCE_MS : ℤ := 150

/-- `HIT_ZONE_X = CANVAS_W - 250`, parametric in the display width. -/
def hitZoneX (W : ℚ) : ℚ := W - 250

/-- The strum-zone rectangle, parametric in display dimensions:
`{x: CANVAS_W - 650, y: CANVAS_H * 0.65, w: 600, h: CANVAS_H * 0.3}`. -/
structure Zone where
  x : ℚ
  y : ℚ
  w : ℚ
  h : ℚ
deriving DecidableEq, Repr

def strumZone (W H : ℚ) : Zone :=
  { x := W - 650, y := H * (13/20), w := 600, h := H * (3/10) }

/-- `STRUM_MID_Y = STRUM_ZONE.y + STRUM_ZONE.h / 2`. -/
def strumMidY (W H : ℚ) : ℚ := (strumZone W H).y + (strumZone W H).h / 2

/-! ## Notes and scoring state -/

/-- A track note (`interface Note`): `{id, x, chordName, hit, missed}`. -/
structure Note where
  id : ℕ
  x : ℚ
  chordName : String
  hit : Bool
  missed : Bool
deriving DecidableEq, Repr

/-- The mutable scoring refs of `PCPlayer`:
`scoreRef`, `comboRef`, `perfectCountRef`, `greatCountRef`, `missCountRef`. -/
structure Scoring where
  score : ℕ
  combo : ℕ
  perfectCount : ℕ
  greatCount : ℕ
  missCount : ℕ
deriving DecidableEq, Repr

def Scoring.init : Scoring := ⟨0, 0, 0, 0, 0⟩

/-- `note.state = Pending` in the spec's vocabulary: neither hit nor missed. -/
def Note.pending (n : Note) : Prop := n.hit = false ∧ n.missed = false

instance (n : Note) : Decidable n.pending := by
  unfold Note.pending; infer_instance

/-! ## The judge: one iteration of the note loop

The body of `for (let i = notes.length - 1; i >= 0; i--)` in `gameLoop`:
if the note is neither hit nor missed, it advances by `NOTE_SPEED`; then, if
`didStrum` and `|note.x - HIT_ZONE_X| < HIT_WINDOW`, it is marked hit
(Perfect when `dist < HIT_WINDOW / 3.5`, scoring 1000, else Great scoring
500; `combo += 1`); then, if `note.x > HIT_ZONE_X + HIT_WINDOW`, it is
marked missed (`combo := 0`, `missCount += 1`). -/
def noteStep (W : ℚ) (didStrum : Bool) (s : Scoring) (n : Note) : Scoring × Note :=
  if n.hit = false ∧ n.missed = false then
    let x1 := n.x + NOTE_SPEED
    let dist := |x1 - hitZoneX W|
    let hitNow := didStrum = true ∧ dist < HIT_WINDOW
    let isPerfect := dist < HIT_WINDOW / (7/2)
    let s1 : Scoring :=
      if hitNow then
        { s with
          score := s.score + (if isPerfect then 1000 else 500),
          combo := s.combo + 1,
          perfectCount := s.perfectCount + (if isPerfect then 1 else 0),
          greatCount := s.greatCount + (if isPerfect then 0 else 1) }
      else s
    let hit1 : Bool := if hitNow then true else n.hit
    if x1 > hitZoneX W + HIT_WINDOW then
      ({ s1 with combo := 0, missCount := s1.missCount + 1 },
       { n with x := x1, hit := hit1, missed := true })
    else
      (s1, { n with x := x1, hit := hit1 })
  else (s, n)

/-- The whole note loop. It iterates from the highest index down to 0,
so the tail (higher indices) is processed before the head. The updated notes
stay in their array positions. -/
def judgeAll (W : ℚ) (didStrum : Bool) (s : Scoring) : List Note → Scoring × List Note
  | [] => (s, [])
  | n :: rest =>
    let tl := judgeAll W didStrum s rest
    let hd := noteStep W didStrum tl.1 n
    (hd.1, hd.2 :: tl.2)

/-- The note-only effect of one loop iteration (the note's new value does not
depend on the scoring accumulator). -/
def noteUpd (W : ℚ) (didStrum : Bool) (n : Note) : Note :=
  (noteStep W didStrum Scoring.init n).2

/-- One frame's worth of note bookkeeping: optional spawn (`spawnNote` pushes
to the end of the array before the loop runs), the judging loop, then
`notesRef.current = notes.filter(n => n.x < CANVAS_W + 200 && !n.hit)`. -/
def tick (W : ℚ) (didStrum : Bool) (spawn : Option Note) (st : Scoring × List Note) :
    Scoring × List Note :=
  let notes := st.2 ++ spawn.toList
  let r := judgeAll W didStrum st.1 notes
  (r.1, r.2.filter (fun n => n.x < W + 200 ∧ n.hit = false))

/-! ## Position signal extractor

`predictions` is the list of detected hands; each hand is its landmark
array (index ↦ raw source-frame coordinates). The code reads landmarks
0 (wrist) and 8, 12, 16 (fingertips). -/

structure Hand where
  landmarks : ℕ → ℚ × ℚ

/-- Raw horizontal coordinate of the wrist landmark: `p.landmarks[0][0]`. -/
def wristRawX (p : Hand) : ℚ := (p.landmarks 0).1

/-- Raw vertical coordinate of the wrist landmark: `p.landmarks[0][1]`. -/
def wristRawY (p : Hand) : ℚ := (p.landmarks 0).2

/-- `(hand.landmarks[8][1] + hand.landmarks[12][1] + hand.landmarks[16][1]) / 3`. -/
def avgTipRawY (p : Hand) : ℚ :=
  ((p.landmarks 8).2 + (p.landmarks 12).2 + (p.landmarks 16).2) / 3

/-- The wrist-height gate:
`validHands = predictions.filter(p => p.landmarks[0][1] * vScale > CANVAS_H * 0.45)`. -/
def validHands (videoH H : ℚ) (predictions : List Hand) : List Hand :=
  predictions.filter (fun p => wristRawY p * (H / videoH) > H * (9/20))

/-- `validHands.reduce((prev, curr) => (prev.landmarks[0][0] < curr.landmarks[0][0]) ? prev : curr)`:
a JavaScript `reduce` without a seed folds from the first element, so on a
tie (`¬ <`) the later hand wins. -/
def selectHand : List Hand → Option Hand
  | [] => none
  | p :: rest =>
    some (rest.foldl (fun prev curr => if wristRawX prev < wristRawX curr then prev else curr) p)

/-- The per-frame extractor output: the pair
`(displayHandX, avgTipY) = (CANVAS_W - wrist.x * hScale, avgTip.y * vScale)`
of the selected hand, or `none` when no hand passes the gate. -/
def extractPosition (videoW videoH W H : ℚ) (predictions : List Hand) : Option (ℚ × ℚ) :=
  match selectHand (validHands videoH H predictions) with
  | none => none
  | some hand => some (W - wristRawX hand * (W / videoW), avgTipRawY hand * (H / videoH))

/-- The extractor as the specification words it, for comparison with
`extractPosition`: among gate-passing hands, select the one with the
smallest *horizontal display coordinate* (leftmost on the display, ties
broken by taking the earliest in detection order), and report the *average
display position of the three fingertip landmarks* of that hand. -/
def extractPositionSpec (videoW videoH W H : ℚ) (predictions : List Hand) : Option (ℚ × ℚ) :=
  let dispX : Hand → ℚ := fun p => W - wristRawX p * (W / videoW)
  match validHands videoH H predictions with
  | [] => none
  | p :: rest =>
    let hand := rest.foldl (fun prev curr => if dispX curr < dispX prev then curr else prev) p
    some (((W - (hand.landmarks 8).1 * (W / videoW)) +
           (W - (hand.landmarks 12).1 * (W / videoW)) +
           (W - (hand.landmarks 16).1 * (W / videoW))) / 3,
          avgTipRawY hand * (H / videoH))

/-! ## Strum event detector -/

/-- Strum direction: `vel > 0 ? 'down' : 'up'`. -/
inductive StrumDir where
  | down
  | up
deriving DecidableEq, Repr

/-- The detector's cross-frame state: `lastYRef`, `lastStrumTimeRef`,
`isStrummingRef`. -/
structure DetState where
  lastY : Option ℚ
  lastStrumTime : ℤ
  isStrumming : Bool
deriving DecidableEq, Repr

/-- Membership of the extracted position in the strum-zone rectangle:
`displayHandX > STRUM_ZONE.x && displayHandX < STRUM_ZONE.x + STRUM_ZONE.w &&
 avgTipY > STRUM_ZONE.y && avgTipY < STRUM_ZONE.y + STRUM_ZONE.h`. -/
def inStrumZone (W H x y : ℚ) : Prop :=
  x > (strumZone W H).x ∧ x < (strumZone W H).x + (strumZone W H).w ∧
  y > (strumZone W H).y ∧ y < (strumZone W H).y + (strumZone W H).h

instance (W H x y : ℚ) : Decidable (inStrumZone W H x y) := by
  unfold inStrumZone; infer_instance

/-- The midline-crossing condition:
`(lastY < STRUM_MID_Y && y >= STRUM_MID_Y) || (lastY > STRUM_MID_Y && y <= STRUM_MID_Y)`. -/
def crossedMid (W H ly y : ℚ) : Prop :=
  (ly < strumMidY W H ∧ y ≥ strumMidY W H) ∨ (ly > strumMidY W H ∧ y ≤ strumMidY W H)

instance (W H ly y : ℚ) : Decidable (crossedMid W H ly y) := by
  unfold crossedMid; infer_instance

/-- One frame of the detector, fed the extractor's output and `now`.

Faithful to the source's branch structure: when the extractor yields
nothing (`predictions` empty or no hand passes the gate) *no* detector
state is touched; when the position lies outside the strum zone,
`lastYRef := null` and `isStrummingRef := false`; inside the zone the
crossing/velocity/debounce test may fire an event (updating
`lastStrumTimeRef := now` and `isStrummingRef := true`), and
`lastYRef := avgTipY` afterwards in every case. -/
def detectStep (W H : ℚ) (pos : Option (ℚ × ℚ)) (now : ℤ) (st : DetState) :
    DetState × Option StrumDir :=
  match pos with
  | none => (st, none)
  | some (x, y) =>
    if inStrumZone W H x y then
      match st.lastY with
      | some ly =>
        let vel := y - ly
        if crossedMid W H ly y ∧ |vel| > STRUM_VELOCITY_THRESHOLD ∧
            now - st.lastStrumTime > DEBOUNCE_MS then
          (⟨some y, now, true⟩, some (if vel > 0 then StrumDir.down else StrumDir.up))
        else ({ st with lastY := some y }, none)
      | none => ({ st with lastY := some y }, none)
    else ({ st with lastY := none, isStrumming := false }, none)

/-- Run the detector over a list of frames `(extracted position, now)`,
collecting the timestamps of the emitted events. -/
def detRun (W H : ℚ) (st : DetState) : List (Option (ℚ × ℚ) × ℤ) → DetState × List ℤ
  | [] => (st, [])
  | (pos, now) :: rest =>
    let r1 := detectStep W H pos now st
    let r2 := detRun W H r1.1 rest
    (r2.1, (if (r1.2).isSome then [now] else []) ++ r2.2)

/-! ## Fret/chord state store (`ws.onmessage`, `chord_change` branch) -/

/-- One entry of `payload.fingering`: `{string, fret}`. -/
structure Fingering where
  string : ℤ
  fret : ℤ
deriving DecidableEq, Repr

/-- One `payload.fingering.forEach` iteration:
`const stringIndex = 6 - string; if (stringIndex >= 0 && stringIndex < 6) fretStates[stringIndex] = fret;`.
The slot array is modelled as a total map from integer indices so that the
absence of out-of-bounds writes is itself a provable statement. -/
def applyEntry (s : ℤ → Option ℤ) (e : Fingering) : ℤ → Option ℤ :=
  let stringIndex := 6 - e.string
  if 0 ≤ stringIndex ∧ stringIndex < 6 then
    fun j => if j = stringIndex then some e.fret else s j
  else s

/-- The full handler: start from `[null, null, null, null, null, null]`
(every index unused) and apply each fingering entry in order. -/
def fretStatesOf (fs : List Fingering) : ℤ → Option ℤ :=
  fs.foldl applyEntry (fun _ => none)

/-! ## Spec-modelled components

`maxCombo` bookkeeping and the end-of-session summary emission are declared
by the score-submission interface (`ScoreData` in `BackendService.ts`, with
`max_combo` among its fields) but the observed player never maintains or
submits them: `handleExit` only calls `onExit()`. The definitions below
model those two components from the specification's words so their claims
can be settled. -/

/-- Scoring state extended with the spec's `maxCombo` field. -/
structure ScoringM where
  score : ℕ
  combo : ℕ
  maxCombo : ℕ
  perfectCount : ℕ
  greatCount : ℕ
  missCount : ℕ
deriving DecidableEq, Repr

def ScoringM.init : ScoringM := ⟨0, 0, 0, 0, 0, 0⟩

/-- Modelled from the spec: the source judge (see `noteStep`) with the
missing `maxCombo := max(maxCombo, combo)` update added to the Hit branch,
as §4.4 of the specification requires; everything else is the source's
note-loop body unchanged. -/
def noteStepM (W : ℚ) (didStrum : Bool) (s : ScoringM) (n : Note) : ScoringM × Note :=
  if n.hit = false ∧ n.missed = false then
    let x1 := n.x + NOTE_SPEED
    let dist := |x1 - hitZoneX W|
    let hitNow := didStrum = true ∧ dist < HIT_WINDOW
    let isPerfect := dist < HIT_WINDOW / (7/2)
    let s1 : ScoringM :=
      if hitNow then
        { s with
          score := s.score + (if isPerfect then 1000 else 500),
          combo := s.combo + 1,
          maxCombo := max s.maxCombo (s.combo + 1),
          perfectCount := s.perfectCount + (if isPerfect then 1 else 0),
          greatCount := s.greatCount + (if isPerfect then 0 else 1) }
      else s
    let hit1 : Bool := if hitNow then true else n.hit
    if x1 > hitZoneX W + HIT_WINDOW then
      ({ s1 with combo := 0, missCount := s1.missCount + 1 },
       { n with x := x1, hit := hit1, missed := true })
    else
      (s1, { n with x := x1, hit := hit1 })
  else (s, n)

/-- The note loop over the `maxCombo`-extended scoring state. -/
def judgeAllM (W : ℚ) (didStrum : Bool) (s : ScoringM) : List Note → ScoringM × List Note
  | [] => (s, [])
  | n :: rest =>
    let tl := judgeAllM W didStrum s rest
    let hd := noteStepM W didStrum tl.1 n
    (hd.1, hd.2 :: tl.2)

/-- One frame over the extended scoring state: spawn, judge, retire. -/
def tickM (W : ℚ) (didStrum : Bool) (spawn : Option Note) (st : ScoringM × List Note) :
    ScoringM × List Note :=
  let notes := st.2 ++ spawn.toList
  let r := judgeAllM W didStrum st.1 notes
  (r.1, r.2.filter (fun n => n.x < W + 200 ∧ n.hit = false))

/-- A whole session: one `tickM` per input `(didStrum, spawned note)`. -/
def runM (W : ℚ) (st : ScoringM × List Note) :
    List (Bool × Option Note) → ScoringM × List Note
  | [] => st
  | (d, sp) :: rest => runM W (tickM W d sp st) rest

/-- The end-of-session summary `SessionSummary{score, maxCombo,
perfectCount, greatCount, missCount, durationSeconds}`. -/
structure SessionSummary where
  score : ℕ
  maxCombo : ℕ
  perfectCount : ℕ
  greatCount : ℕ
  missCount : ℕ
  durationSeconds : ℚ
deriving DecidableEq, Repr

/-- The session aggregator: the scoring state, the session start time
(`gameStartTimeRef`), and whether the summary has already been emitted. -/
structure Aggregator where
  scoring : ScoringM
  startTime : ℤ
  ended : Bool
deriving DecidableEq, Repr

/-- The snapshot handed to the score-submission interface
(`BackendService.submitScore`). -/
def mkSummary (a : Aggregator) (now : ℤ) : SessionSummary :=
  { score := a.scoring.score,
    maxCombo := a.scoring.maxCombo,
    perfectCount := a.scoring.perfectCount,
    greatCount := a.scoring.greatCount,
    missCount := a.scoring.missCount,
    durationSeconds := ((now - a.startTime : ℤ) : ℚ) / 1000 }

/-- Modelled from the spec: end-of-session emission, absent from the
source (`handleExit` only calls `onExit()`; `BackendService.submitScore`
declares the outbound interface but is never invoked). Per §4.6, the first
call emits the summary exactly once and marks the session ended;
re-invocation is a no-op that changes no state and emits nothing. -/
def endSession (a : Aggregator) (now : ℤ) : Aggregator × Option SessionSummary :=
  if a.ended then (a, none)
  else ({ a with ended := true }, some (mkSummary a now))

/-! ## Helper lemmas -/

/-- A note that is already hit or missed is left untouched and contributes
nothing to the scoring state. -/
lemma noteStep_terminal (W : ℚ) (d : Bool) (s : Scoring) (n : Note)
    (h : ¬ n.pending) : noteStep W d s n = (s, n) := by
  unfold noteStep
  rw [if_neg]
  exact fun hc => h ⟨hc.1, hc.2⟩

/-- The updated note does not depend on the incoming scoring accumulator. -/
lemma noteStep_snd (W : ℚ) (d : Bool) (s : Scoring) (n : Note) :
    (noteStep W d s n).2 = noteUpd W d n := by
  unfold noteUpd noteStep
  dsimp only
  split_ifs <;> rfl

/-- The loop updates each note in place, independently of the others. -/
lemma judgeAll_snd (W : ℚ) (d : Bool) (s : Scoring) (ns : List Note) :
    (judgeAll W d s ns).2 = ns.map (noteUpd W d) := by
  induction ns with
  | nil => rfl
  | cons n rest ih =>
    simp only [judgeAll, List.map_cons, noteStep_snd]
    exact congrArg _ ih

/-! ## C1 — strum resolution -/

/-- C1 as stated is false on the code: `didStrum` is never cleared inside
the note loop, so a single strum resolves *every* pending note within
`HIT_WINDOW`. With `W = 1000` (`HIT_ZONE_X = 750`) and pending notes whose
advanced positions are at distances 10 and 40 from the hit line (both
`< HIT_WINDOW = 120`), one strum marks both notes Hit — the distance-40
note does not remain Pending. -/
theorem c1_strum_hits_both_notes :
    ((judgeAll 1000 true Scoring.init
        [⟨0, 724, "C", false, false⟩, ⟨1, 694, "G", false, false⟩]).2.map Note.hit)
      = [true, true] := by
  norm_num [judgeAll, noteStep, NOTE_SPEED, HIT_WINDOW, hitZoneX, Scoring.init, abs_lt]

/-- C1 (amended): on a strum frame the Judge marks Hit *every* Pending note
whose advanced distance `|trackPosition - HIT_ZONE_X|` is below
`HIT_WINDOW` — not only the nearest — and a Pending note becomes Hit on
that frame exactly when it so qualifies; each note is updated independently
of the others. -/
theorem c1_amended_all_qualifying_hit (W : ℚ) (s : Scoring) (ns : List Note)
    (n : Note) (hp : n.pending) :
    (judgeAll W true s ns).2 = ns.map (noteUpd W true) ∧
    ((noteUpd W true n).hit = true ↔ |n.x + NOTE_SPEED - hitZoneX W| < HIT_WINDOW) := by
  refine ⟨judgeAll_snd W true s ns, ?_⟩
  obtain ⟨h1, h2⟩ := hp
  unfold noteUpd noteStep
  rw [if_pos ⟨h1, h2⟩]
  dsimp only
  split_ifs with hq hm hm <;> simp_all

/-- Witness for `c1_amended_all_qualifying_hit` at a concrete input:
the distance-40 note of the counterexample scenario is itself marked Hit. -/
theorem c1_amended_witness :
    (⟨1, 694, "G", false, false⟩ : Note).pending ∧
    ((noteUpd 1000 true ⟨1, 694, "G", false, false⟩).hit = true ↔
      |(694 : ℚ) + NOTE_SPEED - hitZoneX 1000| < HIT_WINDOW) :=
  ⟨by decide,
   (c1_amended_all_qualifying_hit 1000 Scoring.init []
      ⟨1, 694, "G", false, false⟩ (by decide)).2⟩

/-! ## C7 — single transition, terminal exclusion -/

/-- C7: a note transitions at most once. A note that is already Hit or
Missed is skipped entirely by the loop body — its state never changes again
and it contributes nothing to score, combo, or the counters — and a Pending
note never becomes both Hit and Missed in one frame (a hit needs
`|x - HIT_ZONE_X| < HIT_WINDOW` while a miss needs
`x > HIT_ZONE_X + HIT_WINDOW`, which exclude each other). -/
theorem c7_note_transitions_at_most_once (W : ℚ) (d : Bool) (s : Scoring) (n : Note) :
    (¬ n.pending → noteStep W d s n = (s, n)) ∧
    (¬ n.pending → noteUpd W d n = n) ∧
    (n.pending → ¬ ((noteUpd W d n).hit = true ∧ (noteUpd W d n).missed = true)) := by
  refine ⟨noteStep_terminal W d s n, ?_, ?_⟩
  · intro h
    have := noteStep_terminal W d Scoring.init n h
    unfold noteUpd
    rw [this]
  · rintro ⟨h1, h2⟩
    unfold noteUpd noteStep
    rw [if_pos ⟨h1, h2⟩]
    by_cases hq : d = true ∧ |n.x + NOTE_SPEED - hitZoneX W| < HIT_WINDOW
    · have hm : ¬ (n.x + NOTE_SPEED > hitZoneX W + HIT_WINDOW) := by
        push_neg
        linarith [(abs_lt.mp hq.2).2]
      simp only [if_pos hq, if_neg hm]
      simp [h2]
    · by_cases hm : n.x + NOTE_SPEED > hitZoneX W + HIT_WINDOW
      · simp only [if_neg hq, if_pos hm]
        simp [h1]
      · simp only [if_neg hq, if_neg hm]
        simp [h2]

/-- Witness for `c7_note_transitions_at_most_once`: a concrete already-hit
note is untouched, and a concrete pending note cannot end the frame both
hit and missed. -/
theorem c7_witness :
    noteStep 1000 true Scoring.init ⟨0, 724, "C", true, false⟩
      = (Scoring.init, ⟨0, 724, "C", true, false⟩) ∧
    ¬ ((noteUpd 1000 true ⟨1, 694, "G", false, false⟩).hit = true ∧
       (noteUpd 1000 true ⟨1, 694, "G", false, false⟩).missed = true) :=
  ⟨(c7_note_transitions_at_most_once 1000 true Scoring.init _).1 (by decide),
   (c7_note_transitions_at_most_once 1000 true Scoring.init _).2.2 (by decide)⟩

/-! ## C8 — hit rating and awards -/

/-- C8: a note resolved by a strum is marked Hit and not Missed; it is
rated Perfect (`score += 1000`, `perfectCount += 1`) exactly when its
distance to the hit line is below `HIT_WINDOW / 3.5`, otherwise Great
(`score += 500`, `greatCount += 1`); `combo` increases by exactly 1. In
particular a note sitting exactly on `HIT_ZONE_X` at the start of the
frame is Hit with rating Perfect (its judged distance is
`NOTE_SPEED = 16 < HIT_WINDOW / 3.5`). -/
theorem c8_hit_rating (W : ℚ) (s : Scoring) (n : Note) (hp : n.pending)
    (hq : |n.x + NOTE_SPEED - hitZoneX W| < HIT_WINDOW) :
    (noteStep W true s n).2.hit = true ∧
    (noteStep W true s n).2.missed = false ∧
    (noteStep W true s n).1.combo = s.combo + 1 ∧
    (|n.x + NOTE_SPEED - hitZoneX W| < HIT_WINDOW / (7/2) →
      (noteStep W true s n).1.score = s.score + 1000 ∧
      (noteStep W true s n).1.perfectCount = s.perfectCount + 1 ∧
      (noteStep W true s n).1.greatCount = s.greatCount) ∧
    (¬ |n.x + NOTE_SPEED - hitZoneX W| < HIT_WINDOW / (7/2) →
      (noteStep W true s n).1.score = s.score + 500 ∧
      (noteStep W true s n).1.greatCount = s.greatCount + 1 ∧
      (noteStep W true s n).1.perfectCount = s.perfectCount) ∧
    (n.x = hitZoneX W →
      (noteStep W true s n).2.hit = true ∧
      (noteStep W true s n).1.perfectCount = s.perfectCount + 1) := by
  obtain ⟨h1, h2⟩ := hp
  have hlt : n.x + NOTE_SPEED - hitZoneX W < HIT_WINDOW := (abs_lt.mp hq).2
  have hm : ¬ (n.x + NOTE_SPEED > hitZoneX W + HIT_WINDOW) := by
    push_neg
    linarith
  unfold noteStep
  rw [if_pos ⟨h1, h2⟩]
  simp only [if_neg hm, eq_self_iff_true, true_and]
  simp only [if_pos hq]
  by_cases hperf : |n.x + NOTE_SPEED - hitZoneX W| < HIT_WINDOW / (7/2)
  · simp only [if_pos hperf]
    exact ⟨by simp, by simp [h2], by simp, fun _ => ⟨by simp, by simp, by simp⟩,
      fun hc => absurd hperf hc, fun _ => ⟨by simp, by simp⟩⟩
  · simp only [if_neg hperf]
    refine ⟨by simp, by simp [h2], by simp, fun hc => absurd hc hperf,
      fun _ => ⟨by simp, by simp, by simp⟩, fun hx => ?_⟩
    exfalso
    apply hperf
    have e : n.x + NOTE_SPEED - hitZoneX W = 16 := by
      rw [hx]
      unfold NOTE_SPEED
      ring
    rw [e, show |(16 : ℚ)| = 16 from abs_of_pos (by norm_num)]
    norm_num [HIT_WINDOW]

/-- Witness for `c8_hit_rating`: the distance-10 note of the counterexample
scenario is hit as Perfect with `combo = 1` and `score = 1000`. -/
theorem c8_witness :
    (noteStep 1000 true Scoring.init ⟨0, 724, "C", false, false⟩).2.hit = true ∧
    (noteStep 1000 true Scoring.init ⟨0, 724, "C", false, false⟩).1.combo = 1 ∧
    (noteStep 1000 true Scoring.init ⟨0, 724, "C", false, false⟩).1.score = 1000 := by
  have h := c8_hit_rating 1000 Scoring.init ⟨0, 724, "C", false, false⟩ (by decide)
    (by norm_num [NOTE_SPEED, hitZoneX, HIT_WINDOW, abs_lt])
  have hperf := h.2.2.2.1 (by norm_num [NOTE_SPEED, hitZoneX, HIT_WINDOW, abs_lt])
  exact ⟨h.1, h.2.2.1, hperf.1⟩

/-! ## C2 — note advance is a fixed per-frame increment -/

/-- With no strum, a pending note short of the miss line just advances by
`NOTE_SPEED` and nothing else changes. -/
lemma noteStep_no_strum (W : ℚ) (s : Scoring) (n : Note) (hp : n.pending)
    (hfar : ¬ (n.x + NOTE_SPEED > hitZoneX W + HIT_WINDOW)) :
    noteStep W false s n = (s, { n with x := n.x + NOTE_SPEED }) := by
  obtain ⟨h1, h2⟩ := hp
  have hno : ¬ ((false : Bool) = true ∧ |n.x + NOTE_SPEED - hitZoneX W| < HIT_WINDOW) := by
    rintro ⟨hc, -⟩
    exact Bool.false_ne_true hc
  unfold noteStep
  rw [if_pos ⟨h1, h2⟩]
  simp only [if_neg hfar, if_neg hno]

/-- One no-strum, no-spawn frame on a single visible pending note short of
the miss line: the whole tick is a pure advance by `NOTE_SPEED`. -/
lemma tick_single_pending (W : ℚ) (s : Scoring) (i : ℕ) (c : String) (x : ℚ)
    (hfar : ¬ (x + NOTE_SPEED > hitZoneX W + HIT_WINDOW))
    (hvis : x + NOTE_SPEED < W + 200) :
    tick W false none (s, [(⟨i, x, c, false, false⟩ : Note)])
      = (s, [⟨i, x + NOTE_SPEED, c, false, false⟩]) := by
  unfold tick
  simp only [Option.toList, List.append_nil, judgeAll,
    noteStep_no_strum W s ⟨i, x, c, false, false⟩ ⟨rfl, rfl⟩ hfar]
  simp [List.filter, hvis]

/-- Iterating no-strum frames advances the note by `NOTE_SPEED` per frame,
independent of how much wall-clock time the frames cover. -/
lemma iterate_tick_single (W : ℚ) (s : Scoring) (i : ℕ) (c : String) (k : ℕ) (x : ℚ)
    (hfar : x + NOTE_SPEED * k ≤ hitZoneX W + HIT_WINDOW)
    (hvis : x + NOTE_SPEED * k < W + 200) :
    (tick W false none)^[k] (s, [(⟨i, x, c, false, false⟩ : Note)])
      = (s, [⟨i, x + NOTE_SPEED * k, c, false, false⟩]) := by
  induction k generalizing x with
  | zero => simp
  | succ k ih =>
    have hsp : (0 : ℚ) ≤ NOTE_SPEED := by norm_num [NOTE_SPEED]
    have hk : (0 : ℚ) ≤ NOTE_SPEED * k := mul_nonneg hsp (Nat.cast_nonneg k)
    have hcast : (((k + 1 : ℕ)) : ℚ) = (k : ℚ) + 1 := by push_cast; ring
    have hfar1 : ¬ (x + NOTE_SPEED > hitZoneX W + HIT_WINDOW) := by
      push_neg
      rw [hcast] at hfar
      nlinarith
    have hvis1 : x + NOTE_SPEED < W + 200 := by
      rw [hcast] at hvis
      nlinarith
    rw [Function.iterate_succ_apply,
      tick_single_pending W s i c x hfar1 hvis1,
      ih (x + NOTE_SPEED) (by rw [hcast] at hfar; linarith) (by rw [hcast] at hvis; linarith)]
    have : x + NOTE_SPEED + NOTE_SPEED * k = x + NOTE_SPEED * ((k + 1 : ℕ) : ℚ) := by
      rw [hcast]; ring
    rw [this]

/-- C2 is the specification's intent but not the code's behaviour: the code
advances every pending note by the fixed increment `NOTE_SPEED = 16` per
frame with no wall-clock normalization. Sixty frames (one second of ticks
at 60 fps) move a note from `-100` to `860` (960 px), while thirty frames
(the same one second at 30 fps) move it only to `380` (480 px): two tick
sequences covering the same wall-clock duration advance the note by
different total distances. -/
theorem c2_advance_is_frame_rate_dependent :
    ((tick 10000 false none)^[60] (Scoring.init, [(⟨0, -100, "G", false, false⟩ : Note)])).2
        = [⟨0, 860, "G", false, false⟩] ∧
    ((tick 10000 false none)^[30] (Scoring.init, [(⟨0, -100, "G", false, false⟩ : Note)])).2
        = [⟨0, 380, "G", false, false⟩] ∧
    (860 : ℚ) - (-100) ≠ 380 - (-100) := by
  refine ⟨?_, ?_, by norm_num⟩
  · rw [iterate_tick_single 10000 Scoring.init 0 "G" 60 (-100)
      (by norm_num [NOTE_SPEED, hitZoneX, HIT_WINDOW])
      (by norm_num [NOTE_SPEED])]
    norm_num [NOTE_SPEED]
  · rw [iterate_tick_single 10000 Scoring.init 0 "G" 30 (-100)
      (by norm_num [NOTE_SPEED, hitZoneX, HIT_WINDOW])
      (by norm_num [NOTE_SPEED])]
    norm_num [NOTE_SPEED]

/-! ## C3 — `maxCombo` bookkeeping -/

/-- One loop iteration preserves `combo ≤ maxCombo`. -/
lemma noteStepM_inv (W : ℚ) (d : Bool) (s : ScoringM) (n : Note)
    (h : s.combo ≤ s.maxCombo) :
    (noteStepM W d s n).1.combo ≤ (noteStepM W d s n).1.maxCombo := by
  unfold noteStepM
  by_cases hp : n.hit = false ∧ n.missed = false
  · rw [if_pos hp]
    by_cases hhit : d = true ∧ |n.x + NOTE_SPEED - hitZoneX W| < HIT_WINDOW
    · by_cases hmiss : n.x + NOTE_SPEED > hitZoneX W + HIT_WINDOW
      · simp only [if_pos hhit, if_pos hmiss]
        simp
      · simp only [if_pos hhit, if_neg hmiss]
        simp [le_max_iff]
    · by_cases hmiss : n.x + NOTE_SPEED > hitZoneX W + HIT_WINDOW
      · simp only [if_neg hhit, if_pos hmiss]
        simp
      · simp only [if_neg hhit, if_neg hmiss]
        exact h
  · rw [if_neg hp]
    exact h

/-- The note loop preserves `combo ≤ maxCombo`. -/
lemma judgeAllM_inv (W : ℚ) (d : Bool) (s : ScoringM) (ns : List Note)
    (h : s.combo ≤ s.maxCombo) :
    (judgeAllM W d s ns).1.combo ≤ (judgeAllM W d s ns).1.maxCombo := by
  induction ns with
  | nil => exact h
  | cons n rest ih => exact noteStepM_inv W d _ n ih

/-- A whole frame preserves `combo ≤ maxCombo`. -/
lemma tickM_inv (W : ℚ) (d : Bool) (sp : Option Note) (st : ScoringM × List Note)
    (h : st.1.combo ≤ st.1.maxCombo) :
    (tickM W d sp st).1.combo ≤ (tickM W d sp st).1.maxCombo :=
  judgeAllM_inv W d st.1 _ h

/-- Any run starting from a state satisfying `combo ≤ maxCombo` keeps it. -/
lemma runM_inv (W : ℚ) (inputs : List (Bool × Option Note)) :
    ∀ st : ScoringM × List Note, st.1.combo ≤ st.1.maxCombo →
      (runM W st inputs).1.combo ≤ (runM W st inputs).1.maxCombo := by
  induction inputs with
  | nil => exact fun st h => h
  | cons p rest ih =>
    rintro st h
    obtain ⟨d, sp⟩ := p
    exact ih _ (tickM_inv W d sp st h)

/-- C3: the Hit branch (spec-modelled `maxCombo` update on the source's
judge) sets `maxCombo = max(previous maxCombo, new combo)` with
`combo` incremented by one, so `maxCombo ≥ combo` holds immediately after
the update; and over every run (any sequence of ticks with arbitrary strum
flags and spawns) from the initial state, `maxCombo ≥ combo` holds. -/
theorem c3_maxCombo_dominates_combo (W : ℚ) (s : ScoringM) (n : Note)
    (inputs : List (Bool × Option Note)) (hp : n.pending)
    (hq : |n.x + NOTE_SPEED - hitZoneX W| < HIT_WINDOW) :
    (noteStepM W true s n).1.combo = s.combo + 1 ∧
    (noteStepM W true s n).1.maxCombo = max s.maxCombo ((noteStepM W true s n).1.combo) ∧
    (noteStepM W true s n).1.maxCombo ≥ (noteStepM W true s n).1.combo ∧
    (runM W (ScoringM.init, []) inputs).1.maxCombo ≥ (runM W (ScoringM.init, []) inputs).1.combo := by
  obtain ⟨h1, h2⟩ := hp
  have hm : ¬ (n.x + NOTE_SPEED > hitZoneX W + HIT_WINDOW) := by
    push_neg
    linarith [(abs_lt.mp hq).2]
  have hrun := runM_inv W inputs (ScoringM.init, []) (le_refl 0)
  unfold noteStepM
  rw [if_pos ⟨h1, h2⟩]
  simp only [if_neg hm, eq_self_iff_true, true_and]
  simp only [if_pos hq]
  exact ⟨by simp, by simp, by simp [le_max_iff], hrun⟩

/-- Witness for `c3_maxCombo_dominates_combo` at a concrete input. -/
theorem c3_witness :
    (noteStepM 1000 true ⟨5000, 3, 7, 2, 3, 0⟩ ⟨0, 724, "C", false, false⟩).1.combo = 4 ∧
    (noteStepM 1000 true ⟨5000, 3, 7, 2, 3, 0⟩ ⟨0, 724, "C", false, false⟩).1.maxCombo = 7 := by
  have h := c3_maxCombo_dominates_combo 1000 ⟨5000, 3, 7, 2, 3, 0⟩ ⟨0, 724, "C", false, false⟩ []
    (by decide) (by norm_num [NOTE_SPEED, hitZoneX, HIT_WINDOW, abs_lt])
  exact ⟨by rw [h.1], by rw [h.2.1, h.1]; decide⟩

/-! ## C4 — the summary is emitted exactly once -/

/-- C4: ending a live session emits the summary — a snapshot of the score
state (score, max combo, perfect count, great count, miss count, duration)
handed to the score-submission interface — and marks the session ended
without touching the score state; ending it again, at any later time,
emits nothing and returns the state unchanged. -/
theorem c4_summary_emitted_exactly_once (a : Aggregator) (now now' : ℤ)
    (h : a.ended = false) :
    (endSession a now).2 = some
      { score := a.scoring.score, maxCombo := a.scoring.maxCombo,
        perfectCount := a.scoring.perfectCount, greatCount := a.scoring.greatCount,
        missCount := a.scoring.missCount,
        durationSeconds := ((now - a.startTime : ℤ) : ℚ) / 1000 } ∧
    (endSession a now).1.scoring = a.scoring ∧
    (endSession a now).1.startTime = a.startTime ∧
    endSession (endSession a now).1 now' = ((endSession a now).1, none) := by
  unfold endSession mkSummary
  simp [h]

/-- Witness for `c4_summary_emitted_exactly_once` at a concrete session. -/
theorem c4_witness :
    (endSession ⟨⟨1500, 1, 2, 1, 1, 0⟩, 1000, false⟩ 61000).2 = some
      { score := 1500, maxCombo := 2, perfectCount := 1, greatCount := 1,
        missCount := 0, durationSeconds := 60 } ∧
    endSession (endSession ⟨⟨1500, 1, 2, 1, 1, 0⟩, 1000, false⟩ 61000).1 99000
      = ((endSession ⟨⟨1500, 1, 2, 1, 1, 0⟩, 1000, false⟩ 61000).1, none) := by
  have h := c4_summary_emitted_exactly_once ⟨⟨1500, 1, 2, 1, 1, 0⟩, 1000, false⟩ 61000 99000 rfl
  refine ⟨?_, h.2.2.2⟩
  rw [h.1]
  norm_num

/-! ## C5 — gap handling in the detector -/

/-- C5 as stated is false on the code: when the extractor yields nothing
(`predictions` empty or no hand passing the gate) the source touches no
detector state, so `lastY` survives the gap. Concretely (display
1280×1000, zone `x ∈ (630, 1230)`, `y ∈ (650, 950)`, midline 800): an
in-zone frame at `y = 700`, then an extractor-none frame — after which
`lastY` is still `some 700`, not `none` — then an in-zone frame at
`y = 900` pairs with the pre-gap sample, crosses the midline at speed 200
and emits a strum event. -/
theorem c5_gap_retains_last_position :
    (detectStep 1280 1000 none 16
      ((detectStep 1280 1000 (some (700, 700)) 0 ⟨none, -10000, false⟩).1)).1.lastY
        = some 700 ∧
    (detRun 1280 1000 ⟨none, -10000, false⟩
      [(some (700, 700), 0), (none, 16), (some (700, 900), 32)]).2 = [32] := by
  have e1 : detectStep 1280 1000 (some (700, 700)) 0 ⟨none, -10000, false⟩
      = (⟨some 700, -10000, false⟩, none) := by
    have hz1 : inStrumZone 1280 1000 700 700 := by norm_num [inStrumZone, strumZone]
    simp only [detectStep]
    rw [if_pos hz1]
  have e2 : detectStep 1280 1000 none 16 ⟨some 700, -10000, false⟩
      = (⟨some 700, -10000, false⟩, none) := rfl
  have e3 : detectStep 1280 1000 (some (700, 900)) 32 ⟨some 700, -10000, false⟩
      = (⟨some 900, 32, true⟩, some StrumDir.down) := by
    have hz3 : inStrumZone 1280 1000 700 900 := by norm_num [inStrumZone, strumZone]
    simp only [detectStep]
    rw [if_pos hz3]
    split_ifs with hc hdir
    · rfl
    · exact absurd (by norm_num : (900 : ℚ) - 700 > 0) hdir
    · exfalso
      apply hc
      refine ⟨Or.inl (by norm_num [strumMidY, strumZone]), ?_, by norm_num [DEBOUNCE_MS]⟩
      rw [show |(900 : ℚ) - 700| = 200 from by rw [abs_of_pos] <;> norm_num]
      norm_num [STRUM_VELOCITY_THRESHOLD]
  constructor
  · rw [e1, e2]
  · simp [detRun, e1, e2, e3]

/-- C5 (amended): only an extracted position *outside* the strum zone
resets `lastPosition` to none (emitting nothing); on a frame where the
extractor yields none the detector leaves its whole state — including
`lastPosition` — unchanged and emits nothing, so an in-zone frame after an
extractor gap pairs with the last position sampled before the gap. -/
theorem c5_amended_reset_only_out_of_zone (W H : ℚ) (st : DetState) (now : ℤ)
    (x y : ℚ) (h : ¬ inStrumZone W H x y) :
    detectStep W H none now st = (st, none) ∧
    detectStep W H (some (x, y)) now st
      = ({ st with lastY := none, isStrumming := false }, none) := by
  constructor
  · rfl
  · simp only [detectStep]
    rw [if_neg h]

/-- Witness for `c5_amended_reset_only_out_of_zone` at a concrete
out-of-zone point. -/
theorem c5_amended_witness :
    detectStep 1280 1000 none 7 ⟨some 700, 0, false⟩ = (⟨some 700, 0, false⟩, none) ∧
    detectStep 1280 1000 (some (0, 0)) 7 ⟨some 700, 0, false⟩
      = (⟨none, 0, false⟩, none) :=
  c5_amended_reset_only_out_of_zone 1280 1000 ⟨some 700, 0, false⟩ 7 0 0
    (by norm_num [inStrumZone, strumZone])

/-! ## C6 — hand selection and reported position -/

/-- The seeded fold underlying `selectHand` (a JavaScript `reduce`). -/
def pickLeftRaw (p : Hand) (l : List Hand) : Hand :=
  l.foldl (fun prev curr => if wristRawX prev < wristRawX curr then prev else curr) p

lemma selectHand_cons (p : Hand) (l : List Hand) :
    selectHand (p :: l) = some (pickLeftRaw p l) := rfl

/-- The fold picks a hand of the candidate set whose raw wrist x is
minimal. -/
lemma pickLeftRaw_min (l : List Hand) (p : Hand) :
    (pickLeftRaw p l = p ∨ pickLeftRaw p l ∈ l) ∧
    wristRawX (pickLeftRaw p l) ≤ wristRawX p ∧
    ∀ g ∈ l, wristRawX (pickLeftRaw p l) ≤ wristRawX g := by
  induction l generalizing p with
  | nil => simp [pickLeftRaw]
  | cons c t ih =>
    have hstep : ∀ q : Hand, pickLeftRaw q (c :: t)
        = pickLeftRaw (if wristRawX q < wristRawX c then q else c) t := fun q => rfl
    by_cases hpc : wristRawX p < wristRawX c
    · rw [hstep, if_pos hpc]
      obtain ⟨hmem, hle, hall⟩ := ih p
      refine ⟨?_, hle, ?_⟩
      · rcases hmem with h | h
        · exact Or.inl h
        · exact Or.inr (List.mem_cons_of_mem c h)
      · intro g hg
        rcases List.mem_cons.mp hg with rfl | hg'
        · exact le_trans hle (le_of_lt hpc)
        · exact hall g hg'
    · rw [hstep, if_neg hpc]
      obtain ⟨hmem, hle, hall⟩ := ih c
      refine ⟨?_, le_trans hle (not_lt.mp hpc), ?_⟩
      · rcases hmem with h | h
        · refine Or.inr ?_
          rw [h]
          exact List.mem_cons_self c t
        · exact Or.inr (List.mem_cons_of_mem c h)
      · intro g hg
        rcases List.mem_cons.mp hg with rfl | hg'
        · exact hle
        · exact hall g hg'

/-- Hand at raw wrist (10, 600) with fingertip landmarks 8/12/16 at raw
(20, 500), (30, 510), (40, 520). -/
def handA : Hand :=
  ⟨fun i => if i = 0 then (10, 600) else if i = 8 then (20, 500)
    else if i = 12 then (30, 510) else if i = 16 then (40, 520) else (0, 0)⟩

/-- Hand at raw wrist (100, 600) with fingertip landmarks 8/12/16 at raw
(110, 400), (120, 410), (130, 420). -/
def handB : Hand :=
  ⟨fun i => if i = 0 then (100, 600) else if i = 8 then (110, 400)
    else if i = 12 then (120, 410) else if i = 16 then (130, 420) else (0, 0)⟩

/-- C6 as stated is false on the code. With a 1280×720 source frame shown
1:1 on a 1280×720 display, both hands pass the gate; the display mirrors x
(`displayHandX = CANVAS_W - rawX * hScale`), so `handA` (raw wrist x 10,
display x 1270) is *rightmost* on the display while `handB` (raw wrist x
100, display x 1180) is leftmost. The spec-worded extractor must pick
`handB` and report its fingertip average `(1160, 410)`; the code picks the
hand with the smallest *raw* x (`handA`) and reports the *wrist's*
display x paired with the fingertip-average y: `(1270, 510)`. -/
theorem c6_extractor_differs_from_spec :
    extractPosition 1280 720 1280 720 [handA, handB] = some (1270, 510) ∧
    extractPositionSpec 1280 720 1280 720 [handA, handB] = some (1160, 410) ∧
    extractPosition 1280 720 1280 720 [handA, handB]
      ≠ extractPositionSpec 1280 720 1280 720 [handA, handB] := by
  refine ⟨?_, ?_, ?_⟩ <;>
    norm_num [extractPosition, extractPositionSpec, validHands, selectHand, pickLeftRaw,
      wristRawX, wristRawY, avgTipRawY, handA, handB, List.filter, List.foldl]

/-- C6 (amended): for every frame whose extractor yields a position, that
position belongs to a gate-passing hand whose *raw source-frame* wrist x is
minimal among all gate-passing hands (after display mirroring this is the
rightmost hand on screen, not the leftmost), and the reported pair is the
mirrored display x of that hand's *wrist* together with the average display
y of its three designated fingertip landmarks. -/
theorem c6_amended_selection (videoW videoH W H : ℚ) (preds : List Hand) (p : ℚ × ℚ)
    (h : extractPosition videoW videoH W H preds = some p) :
    ∃ hand, (hand ∈ validHands videoH H preds) ∧
      (∀ g ∈ validHands videoH H preds, wristRawX hand ≤ wristRawX g) ∧
      p = (W - wristRawX hand * (W / videoW), avgTipRawY hand * (H / videoH)) := by
  unfold extractPosition at h
  cases hv : validHands videoH H preds with
  | nil =>
    rw [hv] at h
    simp [selectHand] at h
  | cons q t =>
    rw [hv, selectHand_cons] at h
    simp only [Option.some.injEq] at h
    obtain ⟨hmem, hle, hall⟩ := pickLeftRaw_min t q
    refine ⟨pickLeftRaw q t, ?_, ?_, h.symm⟩
    · rcases hmem with he | he
      · rw [he]
        exact List.mem_cons_self q t
      · exact List.mem_cons_of_mem q he
    · intro g hg
      rcases List.mem_cons.mp hg with rfl | hg'
      · exact hle
      · exact hall g hg'

/-- Witness for `c6_amended_selection` at the two-hand scenario. -/
theorem c6_amended_witness :
    ∃ hand, (hand ∈ validHands 720 720 [handA, handB]) ∧
      (∀ g ∈ validHands 720 720 [handA, handB], wristRawX hand ≤ wristRawX g) ∧
      ((1270 : ℚ), (510 : ℚ))
        = (1280 - wristRawX hand * (1280 / 1280), avgTipRawY hand * (720 / 720)) :=
  c6_amended_selection 1280 720 1280 720 [handA, handB] (1270, 510)
    (by norm_num [extractPosition, validHands, selectHand, pickLeftRaw,
      wristRawX, wristRawY, avgTipRawY, handA, handB, List.filter, List.foldl])

/-! ## C9 — emission condition and debounce -/

/-- Bookkeeping of `lastStrumTimeRef` by one detector frame: an emission
both requires `now - lastStrumTime > DEBOUNCE_MS` and sets
`lastStrumTime := now`; a silent frame leaves `lastStrumTime` alone. -/
lemma detectStep_time (W H : ℚ) (pos : Option (ℚ × ℚ)) (now : ℤ) (st : DetState) :
    ((detectStep W H pos now st).2.isSome →
      (detectStep W H pos now st).1.lastStrumTime = now ∧
        now - st.lastStrumTime > DEBOUNCE_MS) ∧
    ((detectStep W H pos now st).2 = none →
      (detectStep W H pos now st).1.lastStrumTime = st.lastStrumTime) := by
  cases pos with
  | none => exact ⟨fun h => absurd h (by simp [detectStep]), fun _ => rfl⟩
  | some xy =>
    obtain ⟨x, y⟩ := xy
    simp only [detectStep]
    by_cases hz : inStrumZone W H x y
    · rw [if_pos hz]
      cases hly : st.lastY with
      | none => simp
      | some ly =>
        dsimp only
        by_cases hc : crossedMid W H ly y ∧ |y - ly| > STRUM_VELOCITY_THRESHOLD ∧
            now - st.lastStrumTime > DEBOUNCE_MS
        · rw [if_pos hc]
          exact ⟨fun _ => ⟨rfl, hc.2.2⟩, by simp⟩
        · rw [if_neg hc]
          simp
    · rw [if_neg hz]
      simp

/-- Consecutive emitted timestamps of a detector run are more than
`DEBOUNCE_MS` apart (the head is also that far past the incoming
`lastStrumTime`). -/
lemma detRun_chain (W H : ℚ) (inputs : List (Option (ℚ × ℚ) × ℤ)) :
    ∀ st : DetState,
      List.Chain' (fun a b => b - a > DEBOUNCE_MS)
        (st.lastStrumTime :: (detRun W H st inputs).2) := by
  induction inputs with
  | nil =>
    intro st
    simp [detRun]
  | cons p rest ih =>
    intro st
    obtain ⟨pos, now⟩ := p
    simp only [detRun]
    cases hev : (detectStep W H pos now st).2 with
    | none =>
      have ht := (detectStep_time W H pos now st).2 hev
      simp only [hev, Option.isSome_none, Bool.false_eq_true, if_false, List.nil_append]
      have := ih (detectStep W H pos now st).1
      rwa [ht] at this
    | some d =>
      have ht := (detectStep_time W H pos now st).1 (by simp [hev])
      simp only [hev, Option.isSome_some, if_true, List.singleton_append]
      rw [List.chain'_cons]
      refine ⟨ht.2, ?_⟩
      have := ih (detectStep W H pos now st).1
      rwa [ht.1] at this

/-- C9: inside the strum zone with a previous sample available, the
detector emits exactly when the midline-crossing condition holds, the
speed exceeds `STRUM_VELOCITY_THRESHOLD`, and more than `DEBOUNCE_MS` has
elapsed since the last emitted event; emission updates `lastStrumTime` to
the current time. Consequently, over any input trace the emitted
timestamps are pairwise more than `DEBOUNCE_MS` apart — at most one event
per debounce window, and of two candidates closer together than
`DEBOUNCE_MS` only the first is accepted. -/
theorem c9_emission_iff_and_debounce (W H : ℚ) (st : DetState) (x y ly : ℚ)
    (now : ℤ) (inputs : List (Option (ℚ × ℚ) × ℤ))
    (hz : inStrumZone W H x y) (hly : st.lastY = some ly) :
    ((detectStep W H (some (x, y)) now st).2.isSome ↔
      (crossedMid W H ly y ∧ |y - ly| > STRUM_VELOCITY_THRESHOLD ∧
        now - st.lastStrumTime > DEBOUNCE_MS)) ∧
    ((detectStep W H (some (x, y)) now st).2.isSome →
      (detectStep W H (some (x, y)) now st).1.lastStrumTime = now) ∧
    List.Pairwise (fun a b => b - a > DEBOUNCE_MS) (detRun W H st inputs).2 := by
  have hpair : List.Pairwise (fun a b => b - a > DEBOUNCE_MS) (detRun W H st inputs).2 := by
    have hch := detRun_chain W H inputs st
    haveI : IsTrans ℤ (fun a b => b - a > DEBOUNCE_MS) :=
      ⟨fun a b c h1 h2 => by simp only [DEBOUNCE_MS] at *; omega⟩
    exact (List.Pairwise.of_cons ((List.chain'_iff_pairwise).mp hch) : _)
  refine ⟨?_, fun h => ((detectStep_time W H (some (x, y)) now st).1 h).1, hpair⟩
  simp only [detectStep]
  rw [if_pos hz, hly]
  dsimp only
  by_cases hc : crossedMid W H ly y ∧ |y - ly| > STRUM_VELOCITY_THRESHOLD ∧
      now - st.lastStrumTime > DEBOUNCE_MS
  · rw [if_pos hc]
    simpa using hc
  · rw [if_neg hc]
    simpa using hc

/-- Witness for `c9_emission_iff_and_debounce` on the concrete firing
frame. -/
theorem c9_witness :
    ((detectStep 1280 1000 (some (700, 900)) 32 ⟨some 700, -10000, false⟩).2.isSome ↔
      (crossedMid 1280 1000 700 900 ∧ |(900 : ℚ) - 700| > STRUM_VELOCITY_THRESHOLD ∧
        (32 : ℤ) - (-10000 : ℤ) > DEBOUNCE_MS)) ∧
    ((detectStep 1280 1000 (some (700, 900)) 32 ⟨some 700, -10000, false⟩).2.isSome →
      (detectStep 1280 1000 (some (700, 900)) 32 ⟨some 700, -10000, false⟩).1.lastStrumTime = 32) ∧
    List.Pairwise (fun a b => b - a > DEBOUNCE_MS)
      (detRun 1280 1000 ⟨some 700, -10000, false⟩ [(some (700, 900), 32)]).2 := by
  have h := c9_emission_iff_and_debounce 1280 1000 ⟨some 700, -10000, false⟩ 700 900 700 32
    [(some (700, 900), 32)] (by norm_num [inStrumZone, strumZone]) rfl
  exact ⟨h.1, h.2.1, h.2.2⟩

/-! ## C10 — fingering guard -/

/-- An entry whose target index fails the bounds guard writes nothing. -/
lemma applyEntry_skip (s : ℤ → Option ℤ) (f : Fingering)
    (h : ¬ (0 ≤ 6 - f.string ∧ 6 - f.string < 6)) : applyEntry s f = s := by
  unfold applyEntry
  rw [if_neg h]

/-- An entry never changes a slot other than its own target index. -/
lemma applyEntry_ne (s : ℤ → Option ℤ) (f : Fingering) (j : ℤ)
    (h : 6 - f.string ≠ j) : applyEntry s f j = s j := by
  unfold applyEntry
  by_cases hg : 0 ≤ 6 - f.string ∧ 6 - f.string < 6
  · simp only [if_pos hg]
    rw [if_neg fun hj => h hj.symm]
  · rw [if_neg hg]

/-- Folding the handler never touches a slot no entry targets within
bounds. -/
lemma fretStates_untouched (fs : List Fingering) :
    ∀ (s : ℤ → Option ℤ) (j : ℤ),
      (∀ f ∈ fs, 6 - f.string = j → ¬ (0 ≤ 6 - f.string ∧ 6 - f.string < 6)) →
      (fs.foldl applyEntry s) j = s j := by
  induction fs with
  | nil =>
    intro s j _
    rfl
  | cons f t ih =>
    intro s j h
    simp only [List.foldl_cons]
    rw [ih _ j (fun g hg => h g (List.mem_cons_of_mem f hg))]
    by_cases he : 6 - f.string = j
    · rw [applyEntry_skip s f (h f (List.mem_cons_self f t) he)]
    · exact applyEntry_ne s f j he

/-- C10: an incoming fingering entry whose string lies outside 1..6 is
silently skipped (the slot map is unchanged); an entry with string in 1..6
writes its fret to slot `6 - string`; the assembled fret state is `none`
at every index outside 0..5 (no out-of-bounds write ever lands); and a
slot targeted by no entry stays `none` (unused). -/
theorem c10_fingering_guard (fs : List Fingering) (e : Fingering)
    (s : ℤ → Option ℤ) (j : ℤ) :
    ((e.string < 1 ∨ 6 < e.string) → applyEntry s e = s) ∧
    (1 ≤ e.string → e.string ≤ 6 → applyEntry s e (6 - e.string) = some e.fret) ∧
    ((j < 0 ∨ 6 ≤ j) → fretStatesOf fs j = none) ∧
    ((∀ f ∈ fs, 6 - f.string ≠ j) → fretStatesOf fs j = none) := by
  refine ⟨?_, ?_, ?_, ?_⟩
  · intro h
    exact applyEntry_skip s e (by omega)
  · intro h1 h2
    unfold applyEntry
    rw [if_pos (by omega)]
    simp
  · intro hj
    unfold fretStatesOf
    exact fretStates_untouched fs _ j (fun f _ he => by omega)
  · intro hj
    unfold fretStatesOf
    exact fretStates_untouched fs _ j (fun f hf he => absurd he (hj f hf))

/-- Witness for `c10_fingering_guard` on concrete fingerings: string 7 is
skipped, string 6 lands in slot 0, and slots 6 and 2 stay unused. -/
theorem c10_witness :
    applyEntry (fun _ => none) ⟨7, 2⟩ = (fun _ => none) ∧
    applyEntry (fun _ => none) ⟨6, 3⟩ (6 - (6 : ℤ)) = some 3 ∧
    fretStatesOf [⟨7, 2⟩, ⟨6, 3⟩, ⟨1, 0⟩] 6 = none ∧
    fretStatesOf [⟨7, 2⟩, ⟨6, 3⟩, ⟨1, 0⟩] 2 = none :=
  ⟨(c10_fingering_guard [] ⟨7, 2⟩ (fun _ => none) 0).1 (by norm_num),
   (c10_fingering_guard [] ⟨6, 3⟩ (fun _ => none) 0).2.1 (by norm_num) (by norm_num),
   (c10_fingering_guard [⟨7, 2⟩, ⟨6, 3⟩, ⟨1, 0⟩] ⟨6, 3⟩ (fun _ => none) 6).2.2.1
     (by norm_num),
   (c10_fingering_guard [⟨7, 2⟩, ⟨6, 3⟩, ⟨1, 0⟩] ⟨6, 3⟩ (fun _ => none) 2).2.2.2
     (by decide)⟩

end AirGuitar
